import Mathlib

/-!
Verification of the gacha-simulator repository.

Shallow embedding of `gacha/meta.py`, `gacha/system.py` and
`gacha/simulator.py`.  Python floats are modelled as rationals (`ℚ`),
Python ints as `ℤ`/`ℕ`, Python lists as `List`, `None`-able values as
`Option`, and a raised exception as the `exn` constructor of `PyResult`.
The pseudo-random `random.choices(pool, weights)` call is modelled by an
oracle `pick : ℕ → List ℚ → ℕ` giving, for each attempt number and weight
row, the index of the chosen item; hypotheses on `pick` encode the only
facts `choices` guarantees (an index in range whose weight is positive).
-/

namespace GachaSim

/-- Result of running a piece of Python code: either a normal value or a
raised exception, identified by the exception name. -/
inductive PyResult (α : Type) where
  | exn (msg : String)
  | ok (val : α)
  deriving DecidableEq

/-- Python `round(x, 4)` rounds half to even.  Integer-valued rounding of a
rational, half to even. -/
def roundHalfEven (x : ℚ) : ℤ :=
  let f := ⌊x⌋
  let frac := x - f
  if frac < 1 / 2 then f
  else if 1 / 2 < frac then f + 1
  else if f % 2 = 0 then f else f + 1

/-- `round(x, 4)` from `_split_weights`. -/
def round4 (x : ℚ) : ℚ :=
  (roundHalfEven (x * 10000) : ℚ) / 10000

/-- The `major_pity` field has Python type `Union[bool, int]`. -/
inductive MajorPity where
  | boolv (b : Bool)
  | intv (n : ℤ)
  deriving DecidableEq

/-- The configuration record `GachaMeta` (`gacha/meta.py`) after its
`__post_init__` normalisation ran: `up_list` has been defaulted to `[]`
and `pity_cnt` has been resolved to a concrete integer (the derived value
`base_cnt + ceil((1 - base_prob) / prob_increase)` when it was `None`).
`prob_increase` stays optional because `_check` inspects its `None`-ness.
The `prob_list` field is omitted: it is only consumed by the
rate-estimation path, which none of the verified operations read. -/
structure GachaMeta where
  base_prob : ℚ
  base_cnt : ℤ
  up_percent : ℚ
  up_list : List String
  prob_increase : Option ℚ
  pity_cnt : ℤ
  official_prob : Option ℚ
  major_pity : MajorPity
  refresh : Bool
  deriving DecidableEq

/-- Python truthiness of the optional `official_prob` float
(`if meta.official_prob:`): `None` and `0.0` are falsy. -/
def officialTruthy : Option ℚ → Bool
  | none => false
  | some q => decide (q ≠ 0)

/-- Outcome of `GachaSimulator._check` (`gacha/simulator.py`): it either
raises `SystemBuildError` (modelled as `exn`), returns `False` after a
warning (the `official_prob`-only path), or returns `True`. -/
def check (m : GachaMeta) : PyResult Bool :=
  match m.prob_increase with
  | none =>
    if officialTruthy m.official_prob then .ok false
    else .exn "SystemBuildError: missing prob_increase and official_prob"
  | some inc =>
    if ¬(0 < m.base_prob ∧ m.base_prob < 1) then .exn "SystemBuildError: invalid base_prob"
    else if ¬(0 < m.up_percent ∧ m.up_percent ≤ 1) then .exn "SystemBuildError: invalid up_percent"
    else if ¬(0 ≤ inc ∧ inc < 1) then .exn "SystemBuildError: invalid prob_increase"
    else if m.pity_cnt < m.base_cnt then .exn "SystemBuildError: base_cnt greater than pity_cnt"
    else .ok true

/-- The value of `prob_increase` actually used by the arithmetic of
`_gen_prob_table`; on every configuration that passes validation the
field is present and the default is never taken. -/
def probIncreaseVal (m : GachaMeta) : ℚ :=
  m.prob_increase.getD 0

/-- The raw per-attempt SSR probability list of `_gen_prob_table`
(`gacha/system.py`): `base_prob + max(0, i - base_cnt) * prob_increase`
for `i` in `range(1, pity_cnt + 1)`. -/
def rawRamp (m : GachaMeta) : List ℚ :=
  (List.range m.pity_cnt.toNat).map
    (fun (k : ℕ) => m.base_prob + (max 0 ((k : ℤ) + 1 - m.base_cnt) : ℤ) * probIncreaseVal m)

/-- The ramp after the `refresh` overwrite `result[-1] = 1`; writing to the
last element of an empty list raises `IndexError`, hence the `Option`. -/
def buildRamp (m : GachaMeta) : Option (List ℚ) :=
  let r := rawRamp m
  if m.refresh then
    if r = [] then none else some (r.dropLast ++ [1])
  else some r

/-- `_split_weights(n_up, cur_prob, up_percent)`: the row
`[1 - p, p*(1-u)] + [p*u/n_up] * n_up + [p]`, every entry rounded to four
decimal places. -/
def splitWeights (nUp : ℕ) (curProb upPercent : ℚ) : List ℚ :=
  (([1 - curProb, curProb * (1 - upPercent)] ++
      List.replicate nUp (curProb * upPercent / nUp) ++ [curProb]).map round4)

/-- The `ssr_n_gacha` column: running first-success probabilities
`cum_prob * prob` with `cum_prob` multiplied by `1 - prob` after each row. -/
def ssrNGachaGo : List ℚ → ℚ → List ℚ
  | [], _ => []
  | p :: rest, cum => cum * p :: ssrNGachaGo rest (cum * (1 - p))

/-- The `ssr_n_gacha` column of the regular table (initial `cum_prob = 1`). -/
def ssrNGachaList (r : List ℚ) : List ℚ :=
  ssrNGachaGo r 1

/-- The rows of the regular table restricted to the outcome and
`total_ssr` columns (the shape `_split_weights` produces for each ramp
probability). -/
def regularRows (m : GachaMeta) (r : List ℚ) : List (List ℚ) :=
  r.map (fun p => splitWeights m.up_list.length p m.up_percent)

/-- The major-pity table rows: built only when `major_pity` is the Python
bool `True`; same construction with `up_percent` forced to `1`. -/
def majorRows (m : GachaMeta) (r : List ℚ) : Option (List (List ℚ)) :=
  if m.major_pity = .boolv true then
    some (r.map (fun p => splitWeights m.up_list.length p 1))
  else none

/-- `card_pool` without the trailing `total_ssr`, i.e. the
`item_pool = columns[:-2]` used by every draw engine:
`['no_ssr', 'other_ssr'] + up_list`. -/
def itemPool (m : GachaMeta) : List String :=
  "no_ssr" :: "other_ssr" :: m.up_list

/-- `values[:, :-2]`: the table rows with the `total_ssr` and
`ssr_n_gacha` columns dropped.  In the embedding `ssr_n_gacha` is kept as
a separate list, so only the trailing `total_ssr` entry is dropped. -/
def engineRows (rows : List (List ℚ)) : List (List ℚ) :=
  rows.map List.dropLast

/-- Modelled from the spec: `combination` is imported by
`gacha/system.py` from `gacha.utils` but defined nowhere in the
repository; the spec's non-refresh expectation formula uses it as the
binomial coefficient `C(n, k)`. -/
def combination (n k : ℕ) : ℕ :=
  Nat.choose n k

/-- `_cal_refresh_expectation`: `sum(regular_df.index * regular_df['ssr_n_gacha'])`
with the index running `1..pity_cnt`. -/
def refreshExpectation (r : List ℚ) : ℚ :=
  (List.zipWith (fun (i : ℕ) s => (i : ℚ) * s) (List.range' 1 r.length) (ssrNGachaList r)).sum

/-- `_cal_not_refresh_expectation`: the accumulation loop over
`i in range(n + 1)` with the `if i == 0: i = 1` rewrite, followed by
`n / expectation`.  Python's `range(n + 1)` is empty when `n + 1 ≤ 0`
(hence `(n + 1).toNat` iterations), and the final division raises
`ZeroDivisionError` when the accumulated expectation is zero — which
happens exactly for `pity_cnt < 0`, a sign `_check` never constrains. -/
def notRefreshExpectation (m : GachaMeta) : PyResult ℚ :=
  let ssr := m.base_prob
  let noSsr := 1 - ssr
  let n := m.pity_cnt
  let e := (List.range (n + 1).toNat).foldl
    (fun acc i =>
      let cur := (combination n.toNat i : ℚ) * noSsr ^ (n.toNat - i) * ssr ^ i
      let j := if i = 0 then 1 else i
      acc + (j : ℚ) * cur) 0
  if e = 0 then .exn "ZeroDivisionError" else .ok ((n : ℚ) / e)

/-- `GachaSystem.__init__`: the expectation, selected by `refresh`; it is
only computed after the probability table was built, so a failed table
build (the `IndexError` case of `buildRamp`) propagates; the refresh-path
sum itself cannot raise, while the non-refresh path may raise
`ZeroDivisionError`. -/
def gachaExpectation (m : GachaMeta) : Option (PyResult ℚ) :=
  (buildRamp m).map
    (fun r => if m.refresh then .ok (refreshExpectation r) else notRefreshExpectation m)

/-- `self.theoretical_prob = 1 / self.expectation`: raises
`ZeroDivisionError` when the expectation is zero (as Python's float
division does), which is reachable at validated `pity_cnt = 0` with
`refresh = false`. -/
def theoreticalProb (m : GachaMeta) : Option (PyResult ℚ) :=
  (gachaExpectation m).map
    (fun er =>
      match er with
      | .exn e => .exn e
      | .ok e => if e = 0 then .exn "ZeroDivisionError" else .ok (1 / e))

/-! ### Rounding error bounds -/

theorem roundHalfEven_sub_abs_le (x : ℚ) : |(roundHalfEven x : ℚ) - x| ≤ 1 / 2 := by
  have hfl : (⌊x⌋ : ℚ) ≤ x := Int.floor_le x
  have hfu : x < (⌊x⌋ : ℚ) + 1 := Int.lt_floor_add_one x
  unfold roundHalfEven
  by_cases h1 : x - (⌊x⌋ : ℚ) < 1 / 2
  · simp only [h1, if_true]
    rw [abs_le]
    constructor <;> linarith
  · simp only [h1, if_false]
    by_cases h2 : (1 : ℚ) / 2 < x - (⌊x⌋ : ℚ)
    · simp only [h2, if_true]
      rw [abs_le]
      push_cast
      constructor <;> linarith
    · simp only [h2, if_false]
      have heq : x - (⌊x⌋ : ℚ) = 1 / 2 := le_antisymm (not_lt.mp h2) (not_lt.mp h1)
      by_cases h3 : ⌊x⌋ % 2 = 0 <;> simp only [h3, if_true, if_false] <;>
        rw [abs_le] <;> push_cast <;> constructor <;> linarith

theorem round4_sub_abs_le (x : ℚ) : |round4 x - x| ≤ 1 / 20000 := by
  have h := roundHalfEven_sub_abs_le (x * 10000)
  unfold round4
  have : (roundHalfEven (x * 10000) : ℚ) / 10000 - x
      = ((roundHalfEven (x * 10000) : ℚ) - x * 10000) / 10000 := by ring
  rw [this, abs_div]
  rw [show |(10000 : ℚ)| = 10000 by norm_num]
  have h2 := (div_le_div_iff_of_pos_right (show (0 : ℚ) < 10000 by norm_num)).mpr h
  linarith

/-! ### Row sums of the built tables (claim C1) -/

theorem splitWeights_shape (nUp : ℕ) (p u : ℚ) :
    splitWeights nUp p u
      = (round4 (1 - p) :: round4 (p * (1 - u)) :: List.replicate nUp (round4 (p * u / nUp)))
          ++ [round4 p] := by
  simp [splitWeights, List.map_append, List.map_replicate]

theorem splitWeights_dropLast_sum (nUp : ℕ) (p u : ℚ) :
    (splitWeights nUp p u).dropLast.sum
      = round4 (1 - p) + round4 (p * (1 - u)) + nUp * round4 (p * u / nUp) := by
  rw [splitWeights_shape, List.dropLast_concat]
  simp [List.sum_replicate, nsmul_eq_mul]
  ring

theorem splitWeights_sum_near_one (nUp : ℕ) (h : nUp ≠ 0) (p u : ℚ) :
    |(splitWeights nUp p u).dropLast.sum - 1| ≤ ((nUp : ℚ) + 2) / 20000 := by
  have hn : ((nUp : ℚ)) ≠ 0 := Nat.cast_ne_zero.mpr h
  have hn0 : (0 : ℚ) ≤ (nUp : ℚ) := Nat.cast_nonneg nUp
  have e1 := round4_sub_abs_le (1 - p)
  have e2 := round4_sub_abs_le (p * (1 - u))
  have e3 := round4_sub_abs_le (p * u / nUp)
  rw [splitWeights_dropLast_sum]
  have hc : (nUp : ℚ) * (p * u / nUp) = p * u := by
    field_simp
  have hrw : round4 (1 - p) + round4 (p * (1 - u)) + (nUp : ℚ) * round4 (p * u / nUp) - 1
      = (round4 (1 - p) - (1 - p)) + (round4 (p * (1 - u)) - p * (1 - u))
        + (nUp : ℚ) * (round4 (p * u / nUp) - p * u / nUp) := by
    linear_combination hc
  rw [hrw]
  have habs : |(nUp : ℚ) * (round4 (p * u / nUp) - p * u / nUp)|
      = (nUp : ℚ) * |round4 (p * u / nUp) - p * u / nUp| := by
    rw [abs_mul, abs_of_nonneg hn0]
  have h3 : |(nUp : ℚ) * (round4 (p * u / nUp) - p * u / nUp)| ≤ (nUp : ℚ) / 20000 := by
    rw [habs]
    calc (nUp : ℚ) * |round4 (p * u / nUp) - p * u / nUp|
        ≤ (nUp : ℚ) * (1 / 20000) := by
          exact mul_le_mul_of_nonneg_left e3 hn0
      _ = (nUp : ℚ) / 20000 := by ring
  calc |(round4 (1 - p) - (1 - p)) + (round4 (p * (1 - u)) - p * (1 - u))
        + (nUp : ℚ) * (round4 (p * u / nUp) - p * u / nUp)|
      ≤ |(round4 (1 - p) - (1 - p)) + (round4 (p * (1 - u)) - p * (1 - u))|
        + |(nUp : ℚ) * (round4 (p * u / nUp) - p * u / nUp)| := abs_add _ _
    _ ≤ |round4 (1 - p) - (1 - p)| + |round4 (p * (1 - u)) - p * (1 - u)|
        + |(nUp : ℚ) * (round4 (p * u / nUp) - p * u / nUp)| := by
          linarith [abs_add (round4 (1 - p) - (1 - p)) (round4 (p * (1 - u)) - p * (1 - u))]
    _ ≤ ((nUp : ℚ) + 2) / 20000 := by linarith

theorem splitWeights_sum_empty (p u : ℚ) :
    |(splitWeights 0 p u).dropLast.sum - (1 - p * u)| ≤ 2 / 20000 := by
  have e1 := round4_sub_abs_le (1 - p)
  have e2 := round4_sub_abs_le (p * (1 - u))
  rw [splitWeights_dropLast_sum]
  have hrw : round4 (1 - p) + round4 (p * (1 - u)) + (0 : ℕ) * round4 (p * u / (0 : ℕ)) - (1 - p * u)
      = (round4 (1 - p) - (1 - p)) + (round4 (p * (1 - u)) - p * (1 - u)) := by
    push_cast
    ring
  rw [hrw]
  calc |(round4 (1 - p) - (1 - p)) + (round4 (p * (1 - u)) - p * (1 - u))|
      ≤ |round4 (1 - p) - (1 - p)| + |round4 (p * (1 - u)) - p * (1 - u)| := abs_add _ _
    _ ≤ 2 / 20000 := by linarith

/-- C1 (amended): for every configuration that passes validation and every
row that `_gen_prob_table` produces (regular and, when present, major-pity
table), when `up_list` is non-empty with `n` targets the outcome entries
(idle, other-rare, one per target) sum to `1` up to the accumulated
rounding error `(n + 2) * 5e-5` (within the claimed `1e-3` whenever
`n ≤ 18`); when `up_list` is empty the rate-up mass `p * up_percent` is
dropped entirely — not folded into `other_rare` — and the outcome entries
sum to `1 - p * up_percent` (resp. `1 - p` in the major-pity table) up to
`2 * 5e-5` of rounding. -/
theorem c1_row_outcome_sums (m : GachaMeta) (r : List ℚ)
    (hv : check m = .ok true) (hr : buildRamp m = some r) :
    (m.up_list ≠ [] →
      ∀ row ∈ regularRows m r ++ (majorRows m r).getD [],
        |row.dropLast.sum - 1| ≤ ((m.up_list.length : ℚ) + 2) / 20000) ∧
    (m.up_list = [] → ∀ p ∈ r,
      |(splitWeights 0 p m.up_percent).dropLast.sum - (1 - p * m.up_percent)| ≤ 2 / 20000 ∧
      |(splitWeights 0 p 1).dropLast.sum - (1 - p * 1)| ≤ 2 / 20000) := by
  constructor
  · intro hne row hrow
    have hlen : m.up_list.length ≠ 0 := fun h => hne (List.length_eq_zero.mp h)
    rcases List.mem_append.mp hrow with hreg | hmaj
    · rcases List.mem_map.mp hreg with ⟨p, _, hp⟩
      rw [← hp]
      exact splitWeights_sum_near_one _ hlen p _
    · unfold majorRows at hmaj
      by_cases hmp : m.major_pity = .boolv true
      · simp only [hmp, if_pos rfl, Option.getD_some] at hmaj
        rcases List.mem_map.mp hmaj with ⟨p, _, hp⟩
        rw [← hp]
        exact splitWeights_sum_near_one _ hlen p _
      · simp only [if_neg hmp, Option.getD_none] at hmaj
        exact absurd hmaj (List.not_mem_nil row)
  · intro _ p _
    refine ⟨splitWeights_sum_empty p m.up_percent, ?_⟩
    exact splitWeights_sum_empty p 1

/-- The configuration exhibiting the failure of C1 as stated: empty
`up_list`, `up_percent = 1/2`; it passes `_check`. -/
def c1Meta : GachaMeta :=
  { base_prob := 1 / 2, base_cnt := 0, up_percent := 1 / 2, up_list := [],
    prob_increase := some 0, pity_cnt := 2, official_prob := none,
    major_pity := .boolv false, refresh := false }

/-- C1 counterexample: `c1Meta` passes validation, its `up_list` is empty,
and the first table row's outcome entries sum to `3/4`, which is `1/4`
away from `1` — far beyond the claimed `1e-3` tolerance; the rate-up mass
is not folded into `other_rare`. -/
theorem c1_counterexample :
    check c1Meta = .ok true ∧
    buildRamp c1Meta = some [1 / 2, 1 / 2] ∧
    regularRows c1Meta [1 / 2, 1 / 2]
      = [[1 / 2, 1 / 4, 1 / 2], [1 / 2, 1 / 4, 1 / 2]] ∧
    ¬(|(([1 / 2, 1 / 4, 1 / 2] : List ℚ).dropLast.sum) - 1| ≤ 1 / 1000) := by
  refine ⟨?_, ?_, ?_, ?_⟩
  · norm_num [check, c1Meta, officialTruthy]
  · have h2 : List.range (Int.toNat 2) = [0, 1] := rfl
    simp only [buildRamp, rawRamp, c1Meta, probIncreaseVal, h2, List.map_cons, List.map_nil,
      Option.getD_some]
    norm_num
  · norm_num [regularRows, c1Meta, splitWeights, round4, roundHalfEven]
  · norm_num [List.dropLast, abs_le]

/-- Witness for `c1_row_outcome_sums` at a concrete validated
configuration with one rate-up target. -/
def c1MetaW : GachaMeta :=
  { base_prob := 1 / 2, base_cnt := 0, up_percent := 1 / 2, up_list := ["A"],
    prob_increase := some 0, pity_cnt := 1, official_prob := none,
    major_pity := .boolv false, refresh := false }

theorem c1_witness :
    |(splitWeights 1 (1 / 2) (1 / 2) : List ℚ).dropLast.sum - 1| ≤ ((1 : ℚ) + 2) / 20000 := by
  have h := (c1_row_outcome_sums c1MetaW [1 / 2]
      (by norm_num [check, c1MetaW, officialTruthy])
      (by norm_num [buildRamp, rawRamp, c1MetaW, probIncreaseVal, List.range_succ])).1
    (by simp [c1MetaW]) (splitWeights 1 (1 / 2) (1 / 2))
    (by simp [regularRows, majorRows, c1MetaW])
  simpa using h

/-! ### The probability ramp (claim C2) -/

theorem rawRamp_length (m : GachaMeta) : (rawRamp m).length = m.pity_cnt.toNat := by
  rw [rawRamp, List.length_map, List.length_range]

theorem rawRamp_getElem (m : GachaMeta) (i : ℕ) (hi : i < (rawRamp m).length) :
    (rawRamp m)[i] = m.base_prob + (max 0 ((i : ℤ) + 1 - m.base_cnt) : ℤ) * probIncreaseVal m := by
  simp only [rawRamp, List.getElem_map, List.getElem_range]

/-- C2 (amended): for every configuration that passes validation and whose
table build succeeds, the ramp has length `pity_cnt` and entry `i` equals
`base_prob + max(0, i - base_cnt) * prob_increase` with NO clamping to 1
(the value may exceed 1); only when `refresh` is true is the entry at
index `pity_cnt` overwritten to exactly `1`, and when `refresh` is false
the natural unclamped value is kept. -/
theorem c2_ramp_entries (m : GachaMeta) (r : List ℚ)
    (hv : check m = .ok true) (hr : buildRamp m = some r) :
    r.length = m.pity_cnt.toNat ∧
    ∀ i (hi : i < r.length),
      r[i] = if m.refresh = true ∧ i + 1 = m.pity_cnt.toNat then 1
             else m.base_prob + (max 0 ((i : ℤ) + 1 - m.base_cnt) : ℤ) * probIncreaseVal m := by
  rcases hrf : m.refresh with _ | _
  · have hr' : r = rawRamp m := by
      simp only [buildRamp, hrf, Bool.false_eq_true, if_false, Option.some.injEq] at hr
      exact hr.symm
    subst hr'
    refine ⟨rawRamp_length m, ?_⟩
    intro i hi
    rw [rawRamp_getElem m i hi]
    simp [hrf]
  · have hne : rawRamp m ≠ [] := by
      intro hnil
      simp only [buildRamp, hrf, if_true, hnil] at hr
      simp at hr
    have hr' : r = (rawRamp m).dropLast ++ [1] := by
      simp only [buildRamp, hrf, if_true, if_neg hne, Option.some.injEq] at hr
      exact hr.symm
    have hN : 1 ≤ (rawRamp m).length := List.length_pos.mpr hne
    have hlen : r.length = m.pity_cnt.toNat := by
      rw [hr', List.length_append, List.length_dropLast, List.length_singleton]
      rw [← rawRamp_length m]
      omega
    refine ⟨hlen, ?_⟩
    intro i hi
    have hstep := List.getElem_of_eq hr' hi
    by_cases hlast : i + 1 = m.pity_cnt.toNat
    · have hieq : (rawRamp m).dropLast.length ≤ i := by
        rw [List.length_dropLast, rawRamp_length m]
        omega
      have hval : r[i] = (1 : ℚ) := by
        rw [hstep, List.getElem_append_right hieq]
        simp
      rw [hval]
      simp [hrf, hlast]
    · have hilt : i < (rawRamp m).dropLast.length := by
        rw [List.length_dropLast, rawRamp_length m]
        have h2 := hlen ▸ hi
        omega
      have hiraw : i < (rawRamp m).length := by
        rw [rawRamp_length m]
        have h2 := hlen ▸ hi
        omega
      have hval : r[i] = (rawRamp m)[i] := by
        rw [hstep, List.getElem_append_left hilt, List.getElem_dropLast]
      rw [hval, rawRamp_getElem m i hiraw]
      simp [hrf, hlast]

/-- The configuration exhibiting the failure of the clamp in C2: ramp
entry 1 is `0.5 + 1 * 0.9 = 1.4 > 1`; it passes `_check`. -/
def c2Meta : GachaMeta :=
  { base_prob := 1 / 2, base_cnt := 0, up_percent := 1 / 2, up_list := ["A"],
    prob_increase := some (9 / 10), pity_cnt := 2, official_prob := none,
    major_pity := .boolv false, refresh := false }

/-- C2 counterexample: `c2Meta` passes validation but its first ramp entry
is `7/5`, not the claimed value clamped to at most 1. -/
theorem c2_counterexample :
    check c2Meta = .ok true ∧
    buildRamp c2Meta = some [7 / 5, 23 / 10] ∧
    ¬((7 : ℚ) / 5 = min 1 (c2Meta.base_prob
        + (max 0 ((0 : ℤ) + 1 - c2Meta.base_cnt) : ℤ) * probIncreaseVal c2Meta)) := by
  refine ⟨?_, ?_, ?_⟩
  · norm_num [check, c2Meta, officialTruthy]
  · have h2 : List.range (Int.toNat 2) = [0, 1] := rfl
    simp only [buildRamp, rawRamp, c2Meta, probIncreaseVal, h2, List.map_cons, List.map_nil,
      Option.getD_some]
    norm_num
  · norm_num [c2Meta, probIncreaseVal]

theorem c2_witness :
    ([(7 : ℚ) / 5, 23 / 10] : List ℚ).length = c2Meta.pity_cnt.toNat ∧
    ([(7 : ℚ) / 5, 23 / 10] : List ℚ)[0] =
      (if c2Meta.refresh = true ∧ 0 + 1 = c2Meta.pity_cnt.toNat then 1
       else c2Meta.base_prob
         + (max 0 ((0 : ℤ) + 1 - c2Meta.base_cnt) : ℤ) * probIncreaseVal c2Meta) := by
  have h := c2_ramp_entries c2Meta [7 / 5, 23 / 10]
    (by norm_num [check, c2Meta, officialTruthy])
    (by
      have h2 : List.range (Int.toNat 2) = [0, 1] := rfl
      simp only [buildRamp, rawRamp, c2Meta, probIncreaseVal, h2, List.map_cons, List.map_nil,
        Option.getD_some]
      norm_num)
  exact ⟨h.1, h.2 0 (by norm_num)⟩

/-! ### The non-refresh expectation (claim C3) -/

theorem foldl_add_eq (g : ℕ → ℚ) : ∀ (l : List ℕ) (init : ℚ),
    l.foldl (fun acc i => acc + g i) init = init + (l.map g).sum
  | [], init => by simp
  | a :: t, init => by
    rw [List.foldl_cons, foldl_add_eq g t (init + g a), List.map_cons, List.sum_cons]
    ring

theorem sum_map_range (g : ℕ → ℚ) : ∀ n : ℕ,
    ((List.range n).map g).sum = ∑ k ∈ Finset.range n, g k
  | 0 => by simp
  | n + 1 => by
    rw [List.range_succ, List.map_append, List.sum_append, Finset.sum_range_succ,
      sum_map_range g n]
    simp

theorem check_ok_base_prob (m : GachaMeta) (hv : check m = .ok true) :
    0 < m.base_prob ∧ m.base_prob < 1 := by
  unfold check at hv
  rcases hmp : m.prob_increase with _ | inc
  · simp only [hmp] at hv
    split at hv <;> exact absurd hv (by simp)
  · simp only [hmp] at hv
    by_cases h1 : 0 < m.base_prob ∧ m.base_prob < 1
    · exact h1
    · rw [if_pos h1] at hv
      exact PyResult.noConfusion hv

/-- C3 (amended): for every validated configuration with `refresh = false`
and `pity_cnt ≥ 1`, the computed expectation is `pity_cnt` divided by
`Σ_{k=0}^{pity_cnt} C(pity_cnt, k) * base_prob^k * (1-base_prob)^(pity_cnt-k) * max(k, 1)`,
and the reported theoretical draw-rate is the reciprocal of that
expectation.  Validation does not constrain the sign of `pity_cnt`: at a
validated `pity_cnt = 0` the expectation is computed as 0 but deriving
the draw-rate raises `ZeroDivisionError`, and at a validated
`pity_cnt < 0` the expectation computation itself raises
`ZeroDivisionError` (empty accumulation loop).  (`combination` is
modelled from the spec because the source imports it from `gacha.utils`,
which does not define it.) -/
theorem c3_not_refresh_expectation (m : GachaMeta)
    (hv : check m = .ok true) (hrf : m.refresh = false) (hp : 1 ≤ m.pity_cnt) :
    gachaExpectation m
      = some (.ok ((m.pity_cnt.toNat : ℚ) /
          ∑ k ∈ Finset.range (m.pity_cnt.toNat + 1),
            (combination m.pity_cnt.toNat k : ℚ) * m.base_prob ^ k
              * (1 - m.base_prob) ^ (m.pity_cnt.toNat - k) * ((max k 1 : ℕ) : ℚ))) ∧
    theoreticalProb m
      = some (.ok (1 / ((m.pity_cnt.toNat : ℚ) /
          ∑ k ∈ Finset.range (m.pity_cnt.toNat + 1),
            (combination m.pity_cnt.toNat k : ℚ) * m.base_prob ^ k
              * (1 - m.base_prob) ^ (m.pity_cnt.toNat - k) * ((max k 1 : ℕ) : ℚ)))) := by
  obtain ⟨hb0, hb1⟩ := check_ok_base_prob m hv
  have hbuild : buildRamp m = some (rawRamp m) := by
    simp [buildRamp, hrf]
  have hSpos : 0 < ∑ k ∈ Finset.range (m.pity_cnt.toNat + 1),
      (combination m.pity_cnt.toNat k : ℚ) * m.base_prob ^ k
        * (1 - m.base_prob) ^ (m.pity_cnt.toNat - k) * ((max k 1 : ℕ) : ℚ) := by
    refine Finset.sum_pos (fun k hk => ?_) ⟨0, Finset.mem_range.mpr (Nat.succ_pos _)⟩
    have hk' : k ≤ m.pity_cnt.toNat := Nat.lt_succ_iff.mp (Finset.mem_range.mp hk)
    have h1 : (0 : ℚ) < (combination m.pity_cnt.toNat k : ℚ) := by
      rw [combination]
      exact_mod_cast Nat.choose_pos hk'
    have h2 : (0 : ℚ) < m.base_prob ^ k := pow_pos hb0 k
    have h3 : (0 : ℚ) < (1 - m.base_prob) ^ (m.pity_cnt.toNat - k) :=
      pow_pos (by linarith) _
    have h4 : (0 : ℚ) < ((max k 1 : ℕ) : ℚ) := by
      exact_mod_cast (show 0 < max k 1 by omega)
    exact mul_pos (mul_pos (mul_pos h1 h2) h3) h4
  have hrange : (m.pity_cnt + 1).toNat = m.pity_cnt.toNat + 1 := by omega
  have hfold : (List.range ((m.pity_cnt + 1).toNat)).foldl
      (fun acc i => acc +
        ((if i = 0 then 1 else i : ℕ) : ℚ) *
          ((combination m.pity_cnt.toNat i : ℚ) * (1 - m.base_prob) ^ (m.pity_cnt.toNat - i)
            * m.base_prob ^ i)) 0
      = ∑ k ∈ Finset.range (m.pity_cnt.toNat + 1),
          (combination m.pity_cnt.toNat k : ℚ) * m.base_prob ^ k
            * (1 - m.base_prob) ^ (m.pity_cnt.toNat - k) * ((max k 1 : ℕ) : ℚ) := by
    rw [hrange, foldl_add_eq, zero_add, sum_map_range]
    refine Finset.sum_congr rfl (fun k _ => ?_)
    rcases Nat.eq_zero_or_pos k with hk | hk
    · subst hk
      norm_num
    · rw [if_neg (Nat.pos_iff_ne_zero.mp hk), Nat.max_eq_left hk]
      ring
  have hcast : ((m.pity_cnt : ℚ)) = ((m.pity_cnt.toNat : ℚ)) := by
    have h1 : ((m.pity_cnt.toNat : ℤ)) = m.pity_cnt := Int.toNat_of_nonneg (by omega)
    exact_mod_cast h1.symm
  have hnre : notRefreshExpectation m
      = .ok ((m.pity_cnt.toNat : ℚ) /
          ∑ k ∈ Finset.range (m.pity_cnt.toNat + 1),
            (combination m.pity_cnt.toNat k : ℚ) * m.base_prob ^ k
              * (1 - m.base_prob) ^ (m.pity_cnt.toNat - k) * ((max k 1 : ℕ) : ℚ)) := by
    show (if (List.range ((m.pity_cnt + 1).toNat)).foldl
        (fun acc i => acc +
          ((if i = 0 then 1 else i : ℕ) : ℚ) *
            ((combination m.pity_cnt.toNat i : ℚ) * (1 - m.base_prob) ^ (m.pity_cnt.toNat - i)
              * m.base_prob ^ i)) 0 = 0
      then (PyResult.exn "ZeroDivisionError" : PyResult ℚ)
      else .ok ((m.pity_cnt : ℚ) / (List.range ((m.pity_cnt + 1).toNat)).foldl
        (fun acc i => acc +
          ((if i = 0 then 1 else i : ℕ) : ℚ) *
            ((combination m.pity_cnt.toNat i : ℚ) * (1 - m.base_prob) ^ (m.pity_cnt.toNat - i)
              * m.base_prob ^ i)) 0)) = _
    rw [hfold, if_neg (ne_of_gt hSpos), hcast]
  have hexp : gachaExpectation m
      = some (.ok ((m.pity_cnt.toNat : ℚ) /
          ∑ k ∈ Finset.range (m.pity_cnt.toNat + 1),
            (combination m.pity_cnt.toNat k : ℚ) * m.base_prob ^ k
              * (1 - m.base_prob) ^ (m.pity_cnt.toNat - k) * ((max k 1 : ℕ) : ℚ))) := by
    rw [gachaExpectation, hbuild, Option.map_some', hrf]
    simp only [Bool.false_eq_true, if_false, Option.some.injEq]
    exact hnre
  have hEpos : 0 < (m.pity_cnt.toNat : ℚ) /
      ∑ k ∈ Finset.range (m.pity_cnt.toNat + 1),
        (combination m.pity_cnt.toNat k : ℚ) * m.base_prob ^ k
          * (1 - m.base_prob) ^ (m.pity_cnt.toNat - k) * ((max k 1 : ℕ) : ℚ) := by
    apply div_pos _ hSpos
    exact_mod_cast (show 0 < m.pity_cnt.toNat by omega)
  refine ⟨hexp, ?_⟩
  rw [theoreticalProb, hexp, Option.map_some']
  show some (if ((m.pity_cnt.toNat : ℚ) /
      ∑ k ∈ Finset.range (m.pity_cnt.toNat + 1),
        (combination m.pity_cnt.toNat k : ℚ) * m.base_prob ^ k
          * (1 - m.base_prob) ^ (m.pity_cnt.toNat - k) * ((max k 1 : ℕ) : ℚ)) = 0
    then (PyResult.exn "ZeroDivisionError" : PyResult ℚ)
    else .ok (1 / ((m.pity_cnt.toNat : ℚ) /
      ∑ k ∈ Finset.range (m.pity_cnt.toNat + 1),
        (combination m.pity_cnt.toNat k : ℚ) * m.base_prob ^ k
          * (1 - m.base_prob) ^ (m.pity_cnt.toNat - k) * ((max k 1 : ℕ) : ℚ)))) = _
  rw [if_neg (ne_of_gt hEpos)]

/-- A validated non-refreshing configuration with `pity_cnt = 0`: on it
the program computes expectation `0.0` and then raises
`ZeroDivisionError` when deriving the theoretical draw-rate. -/
def c3Meta0 : GachaMeta :=
  { base_prob := 1 / 2, base_cnt := 0, up_percent := 1 / 2, up_list := ["A"],
    prob_increase := some 0, pity_cnt := 0, official_prob := none,
    major_pity := .boolv false, refresh := false }

/-- A validated non-refreshing configuration with `pity_cnt = -2`: on it
the accumulation loop is empty and the expectation computation itself
raises `ZeroDivisionError`. -/
def c3MetaNeg : GachaMeta :=
  { base_prob := 1 / 2, base_cnt := -5, up_percent := 1 / 2, up_list := ["A"],
    prob_increase := some 0, pity_cnt := -2, official_prob := none,
    major_pity := .boolv false, refresh := false }

/-- C3 counterexample: the claim quantifies over every configuration that
passes validation with `refresh = false`, but `_check` never constrains
the sign of `pity_cnt`: at validated `pity_cnt = 0` the expectation is
computed as `0` and the reported draw-rate raises `ZeroDivisionError`
instead of equalling `1/expectation`, and at validated `pity_cnt = -2`
the expectation computation itself raises `ZeroDivisionError` instead of
producing the claimed value. -/
theorem c3_counterexample :
    check c3Meta0 = .ok true ∧
    gachaExpectation c3Meta0 = some (.ok 0) ∧
    theoreticalProb c3Meta0 = some (.exn "ZeroDivisionError") ∧
    check c3MetaNeg = .ok true ∧
    gachaExpectation c3MetaNeg = some (.exn "ZeroDivisionError") := by
  have hnr0 : notRefreshExpectation c3Meta0 = .ok 0 := by
    simp only [notRefreshExpectation, c3Meta0]
    norm_num [show ((0 : ℤ) + 1).toNat = 1 from rfl, show List.range 1 = [0] from rfl,
      combination]
  have hexp0 : gachaExpectation c3Meta0 = some (.ok 0) := by
    have hb : buildRamp c3Meta0 = some [] := by
      simp [buildRamp, rawRamp, c3Meta0]
    rw [gachaExpectation, hb, Option.map_some']
    simp only [c3Meta0, Bool.false_eq_true, if_false, Option.some.injEq]
    exact hnr0
  have hnrNeg : notRefreshExpectation c3MetaNeg = .exn "ZeroDivisionError" := by
    simp only [notRefreshExpectation, c3MetaNeg]
    norm_num [show ((-1 : ℤ)).toNat = 0 from rfl]
  have hexpNeg : gachaExpectation c3MetaNeg = some (.exn "ZeroDivisionError") := by
    have hb : buildRamp c3MetaNeg = some [] := by
      simp [buildRamp, rawRamp, c3MetaNeg]
    rw [gachaExpectation, hb, Option.map_some']
    simp only [c3MetaNeg, Bool.false_eq_true, if_false, Option.some.injEq]
    exact hnrNeg
  refine ⟨?_, hexp0, ?_, ?_, hexpNeg⟩
  · norm_num [check, c3Meta0, officialTruthy]
  · rw [theoreticalProb, hexp0, Option.map_some']
    show some (if (0 : ℚ) = 0 then (PyResult.exn "ZeroDivisionError" : PyResult ℚ)
      else .ok (1 / (0 : ℚ))) = _
    rw [if_pos rfl]
  · norm_num [check, c3MetaNeg, officialTruthy]

/-- A validated non-refreshing configuration with `pity_cnt ≥ 1`, used as
the C3 witness. -/
def c3MetaW : GachaMeta :=
  { base_prob := 1 / 2, base_cnt := 0, up_percent := 1 / 2, up_list := ["A"],
    prob_increase := some 0, pity_cnt := 2, official_prob := none,
    major_pity := .boolv false, refresh := false }

theorem c3_witness :
    gachaExpectation c3MetaW
      = some (.ok ((c3MetaW.pity_cnt.toNat : ℚ) /
          ∑ k ∈ Finset.range (c3MetaW.pity_cnt.toNat + 1),
            (combination c3MetaW.pity_cnt.toNat k : ℚ) * c3MetaW.base_prob ^ k
              * (1 - c3MetaW.base_prob) ^ (c3MetaW.pity_cnt.toNat - k)
              * ((max k 1 : ℕ) : ℚ))) := by
  exact (c3_not_refresh_expectation c3MetaW
    (by norm_num [check, c3MetaW, officialTruthy]) (by rfl) (by decide)).1

/-! ### The draw engines (`gacha/simulator.py`) -/

/-- Prepends an entry to the result of the remaining steps of a
generator run, propagating a raised exception. -/
def pyCons {α : Type} (a : α) : PyResult (List α) → PyResult (List α)
  | .exn e => .exn e
  | .ok l => .ok (a :: l)

/-- Indexing `rows[i]` with Python/numpy semantics: indices in
`[-len, len)` are valid, negative indices wrap to `len + i`, anything
else raises `IndexError` (`none`). -/
def npIndex {α : Type} (rows : List α) (i : ℤ) : Option α :=
  if 0 ≤ i then rows.get? i.toNat
  else if 0 ≤ i + rows.length then rows.get? (i + rows.length).toNat
  else none

/-- One full run of `_multi_attempts_normal` (Policy A).  The state is the
attempt counter `cur` and the flag `useMaj` recording which table the
`values` variable currently aliases (`maj` after `values = maj_values`,
`reg` after `values = reg_values`); `ts` is the list of remaining step
numbers (only used to feed the `pick` oracle), `mp` is the truthiness of
`meta.major_pity`.  Every attempt is recorded in the returned trace as
`(useMaj, cur_cnt after increment, result)`; the generator's yields are
exactly the trace entries whose result is not `no_ssr`. -/
def normalTrace (pool : List String) (reg maj : List (List ℚ)) (mp : Bool)
    (pick : ℕ → List ℚ → ℕ) :
    List ℕ → ℤ → Bool → PyResult (List (Bool × ℤ × String))
  | [], _, _ => .ok []
  | t :: rest, cur, useMaj =>
    match npIndex (if useMaj then maj else reg) cur with
    | none => .exn "IndexError"
    | some w =>
      let result := pool.getD (pick t w) ""
      let cur' := cur + 1
      if result = "no_ssr" then
        pyCons (useMaj, cur', result) (normalTrace pool reg maj mp pick rest cur' useMaj)
      else
        let useMaj' := if mp then decide (result = "other_ssr") else useMaj
        pyCons (useMaj, cur', result) (normalTrace pool reg maj mp pick rest 0 useMaj')

/-- The events `_multi_attempts_normal` yields: the non-`no_ssr` trace
entries, as `(cur_cnt, result)` pairs. -/
def normalEvents (tr : List (Bool × ℤ × String)) : List (ℤ × String) :=
  (tr.filter (fun e => e.2.2 ≠ "no_ssr")).map (fun e => e.2)

/-- One full run of `_multi_attempts_not_refresh` (Policy B).  `weight` is
the first table row restricted to the outcome columns
(`iloc[0][:-2]`), `ts` the list of `total_cnt` values `1..n_attempts`,
`cur` the attempts-since-last-rare counter and `getSsr` the
rare-seen-this-cycle flag.  At a cycle boundary with no rare seen, the
result is resampled from the weights with the idle weight zeroed
(`[0] + weight[1:]`). -/
def notRefreshSteps (pool : List String) (weight : List ℚ) (pity : ℕ)
    (pick : ℕ → List ℚ → ℕ) :
    List ℕ → ℤ → Bool → List (ℤ × String)
  | [], _, _ => []
  | t :: rest, cur, getSsr =>
    let g := if t % pity = 1 then false else getSsr
    let cur' := cur + 1
    let result := pool.getD (pick t weight) ""
    let result' := if t % pity = 0 ∧ g = false
      then pool.getD (pick t (0 :: weight.drop 1)) "" else result
    if result' = "no_ssr" then notRefreshSteps pool weight pity pick rest cur' g
    else (cur', result') :: notRefreshSteps pool weight pity pick rest 0 true

/-- `_multi_attempts_not_refresh` over `range(1, n_attempts + 1)` from a
caller-supplied `start`; `total_cnt % pity_cnt` raises `ZeroDivisionError`
when `pity_cnt` is zero. -/
def notRefreshRun (pool : List String) (weight : List ℚ) (pity : ℕ)
    (pick : ℕ → List ℚ → ℕ) (nAttempts : ℕ) (start : ℤ) :
    PyResult (List (ℤ × String)) :=
  if pity = 0 then .exn "ZeroDivisionError"
  else .ok (notRefreshSteps pool weight pity pick (List.range' 1 nAttempts) start false)

/-- One full run of `_multi_attempts_specific_major_pity` (Policy C).
`curUp` is `up_list[0]`, `mp` the integer major-pity threshold, `maj` the
guarantee counter (seeded from `major_pity_start`).  Every attempt is
recorded as `(maj_cnt after increment, cur_cnt after increment, final
result)`; the generator's yields are the non-`no_ssr` entries. -/
def specificTrace (pool : List String) (rows : List (List ℚ)) (curUp : String) (mp : ℤ)
    (pick : ℕ → List ℚ → ℕ) :
    List ℕ → ℤ → ℤ → PyResult (List (ℤ × ℤ × String))
  | [], _, _ => .ok []
  | t :: rest, cur, maj =>
    if mp = 0 then .exn "ZeroDivisionError"
    else
      match npIndex rows cur with
      | none => .exn "IndexError"
      | some w =>
        let result := pool.getD (pick t w) ""
        let cur' := cur + 1
        let maj' := maj + 1
        let result' := if maj' % mp = 0 then curUp else result
        if result' = "no_ssr" then
          pyCons (maj', cur', result') (specificTrace pool rows curUp mp pick rest cur' maj')
        else
          let maj'' := if result' = curUp then 0 else maj'
          pyCons (maj', cur', result') (specificTrace pool rows curUp mp pick rest 0 maj'')

/-- The engine `multi_attempts` selects; `nothing` is the Python `None`
fall-through (unreachable while `major_pity` has type `Union[bool, int]`). -/
inductive PolicyBranch where
  | normal
  | notRefresh
  | specific
  | nothing
  deriving DecidableEq

/-- The dispatch performed by `GachaSimulator.multi_attempts`:
`refresh and type(major_pity) == bool` picks `_multi_attempts_normal`,
`not refresh` picks `_multi_attempts_not_refresh`, and
`refresh and type(major_pity) == int` picks
`_multi_attempts_specific_major_pity`. -/
def dispatch (m : GachaMeta) : PolicyBranch :=
  match m.refresh, m.major_pity with
  | true, .boolv _ => .normal
  | false, _ => .notRefresh
  | true, .intv _ => .specific

/-! ### Policy B: forced rare at the cycle boundary (claim C4) -/

theorem notRefreshSteps_idle_cycle (pool : List String) (weight : List ℚ) (pity : ℕ)
    (pick : ℕ → List ℚ → ℕ)
    (hidle : ∀ t, pool.getD (pick t weight) "" = "no_ssr")
    (hforce : pool.getD (pick pity (0 :: weight.drop 1)) "" ≠ "no_ssr") :
    ∀ (k t : ℕ) (cur : ℤ), 1 ≤ t → t + k = pity →
      notRefreshSteps pool weight pity pick (List.range' t (k + 1)) cur false
        = [(cur + k + 1, pool.getD (pick pity (0 :: weight.drop 1)) "")]
  | 0, t, cur, ht, hsum => by
    have hteq : t = pity := by omega
    subst hteq
    rw [List.range'_one, notRefreshSteps]
    simp only [Nat.mod_self]
    rw [ite_self]
    rw [if_pos (show True ∧ (false : Bool) = false from ⟨trivial, rfl⟩)]
    rw [if_neg hforce]
    rw [notRefreshSteps]
    norm_num
  | k + 1, t, cur, ht, hsum => by
    have htlt : t < pity := by omega
    have htmod : t % pity = t := Nat.mod_eq_of_lt htlt
    have hnb : ¬(t = 0 ∧ (false : Bool) = false) := by
      rintro ⟨h0, _⟩
      omega
    rw [List.range'_succ, notRefreshSteps]
    simp only [htmod]
    rw [ite_self]
    rw [if_neg hnb]
    rw [if_pos (hidle t)]
    rw [notRefreshSteps_idle_cycle pool weight pity pick hidle hforce k (t + 1) (cur + 1)
      (by omega) (by omega)]
    have hc : cur + 1 + (k : ℤ) + 1 = cur + ((k : ℤ) + 1) + 1 := by ring
    rw [hc]
    norm_num

/-- C4: under Policy B, a full cycle of `pity_cnt` attempts in which every
natural sample is idle emits exactly one rare event: at the cycle
boundary the engine resamples with the idle weight zeroed, and the single
emitted event carries the attempts-since-last-rare counter
`start + pity_cnt`; in particular with `pity_cnt = 10` and `start = 0`
the counter is 10. -/
theorem c4_cycle_forced (pool : List String) (weight : List ℚ) (pity : ℕ)
    (pick : ℕ → List ℚ → ℕ) (start : ℤ) (hp : 1 ≤ pity)
    (hidle : ∀ t, pool.getD (pick t weight) "" = "no_ssr")
    (hforce : pool.getD (pick pity (0 :: weight.drop 1)) "" ≠ "no_ssr") :
    notRefreshRun pool weight pity pick pity start
      = .ok [(start + pity, pool.getD (pick pity (0 :: weight.drop 1)) "")] := by
  rw [notRefreshRun, if_neg (by omega)]
  have h := notRefreshSteps_idle_cycle pool weight pity pick hidle hforce
    (pity - 1) 1 start (le_refl 1) (by omega)
  rw [show pity - 1 + 1 = pity by omega] at h
  rw [h]
  have hc : start + ((pity - 1 : ℕ) : ℤ) + 1 = start + (pity : ℤ) := by
    have : ((pity - 1 : ℕ) : ℤ) = (pity : ℤ) - 1 := by
      omega
    rw [this]
    ring
  rw [hc]

/-- The oracle used by the C4 witness: picks the first item whose weight
slot is distinguishable, i.e. index 1 when the idle weight was zeroed and
index 0 (idle) otherwise. -/
def c4Pick : ℕ → List ℚ → ℕ :=
  fun _ w => if w.headD 0 = 0 then 1 else 0

theorem c4_witness :
    notRefreshRun ["no_ssr", "other_ssr", "A"] [19 / 20, 1 / 40, 1 / 40] 10 c4Pick 10 0
      = .ok [(10, "other_ssr")] := by
  have h := c4_cycle_forced ["no_ssr", "other_ssr", "A"] [19 / 20, 1 / 40, 1 / 40] 10 c4Pick 0
    (by norm_num)
    (fun t => by
      show ["no_ssr", "other_ssr", "A"].getD
        (if ([(19 : ℚ) / 20, 1 / 40, 1 / 40].headD 0) = 0 then 1 else 0) "" = "no_ssr"
      rw [if_neg (by norm_num)]
      rfl)
    (by
      show ["no_ssr", "other_ssr", "A"].getD
        (if (((0 : ℚ) :: [(19 : ℚ) / 20, 1 / 40, 1 / 40].drop 1).headD 0) = 0 then 1 else 0) ""
        ≠ "no_ssr"
      rw [if_pos (by norm_num)]
      simp)
  simpa using h

/-! ### Policy C: fixed-count guaranteed target (claim C5) -/

theorem pyCons_eq_ok {α : Type} (a : α) (r : PyResult (List α)) (tr : List α) :
    pyCons a r = .ok tr ↔ ∃ tl, r = .ok tl ∧ tr = a :: tl := by
  cases r with
  | exn e => simp [pyCons]
  | ok l =>
    simp only [pyCons, PyResult.ok.injEq]
    constructor
    · intro h
      exact ⟨l, rfl, h.symm⟩
    · rintro ⟨tl, htl, rfl⟩
      cases htl
      rfl

/-- The per-entry guarantee-counter invariant of
`_multi_attempts_specific_major_pity` traces: starting from counter value
`m0`, each recorded attempt carries counter `previous + 1`; whenever that
counter is a multiple of the threshold the recorded outcome is the
tracked target; otherwise the outcome is whatever the sampling oracle
returned; and the counter passed on to the remaining attempts is reset to
0 exactly when the recorded outcome is the tracked target. -/
def specificInv (pool : List String) (pick : ℕ → List ℚ → ℕ) (curUp : String) (mp : ℤ) :
    ℤ → List (ℤ × ℤ × String) → Prop
  | _, [] => True
  | m0, e :: rest =>
    e.1 = m0 + 1 ∧
    (e.1 % mp = 0 → e.2.2 = curUp) ∧
    (e.1 % mp ≠ 0 → ∃ s w, e.2.2 = pool.getD (pick s w) "") ∧
    specificInv pool pick curUp mp (if e.2.2 = curUp then 0 else e.1) rest

theorem specificTrace_nil (pool : List String) (rows : List (List ℚ)) (curUp : String)
    (mp : ℤ) (pick : ℕ → List ℚ → ℕ) (cur maj : ℤ) :
    specificTrace pool rows curUp mp pick [] cur maj = .ok [] := rfl

theorem specificTrace_cons (pool : List String) (rows : List (List ℚ)) (curUp : String)
    (mp : ℤ) (pick : ℕ → List ℚ → ℕ) (t : ℕ) (rest : List ℕ) (cur maj : ℤ) :
    specificTrace pool rows curUp mp pick (t :: rest) cur maj
      = if mp = 0 then .exn "ZeroDivisionError"
        else
          match npIndex rows cur with
          | none => .exn "IndexError"
          | some w =>
            if (if (maj + 1) % mp = 0 then curUp else pool.getD (pick t w) "") = "no_ssr" then
              pyCons (maj + 1, cur + 1,
                  if (maj + 1) % mp = 0 then curUp else pool.getD (pick t w) "")
                (specificTrace pool rows curUp mp pick rest (cur + 1) (maj + 1))
            else
              pyCons (maj + 1, cur + 1,
                  if (maj + 1) % mp = 0 then curUp else pool.getD (pick t w) "")
                (specificTrace pool rows curUp mp pick rest 0
                  (if (if (maj + 1) % mp = 0 then curUp else pool.getD (pick t w) "") = curUp
                    then 0 else maj + 1)) := rfl

theorem specificTrace_ok_length (pool : List String) (rows : List (List ℚ)) (curUp : String)
    (mp : ℤ) (pick : ℕ → List ℚ → ℕ) :
    ∀ (ts : List ℕ) (cur maj : ℤ) (tr : List (ℤ × ℤ × String)),
      specificTrace pool rows curUp mp pick ts cur maj = .ok tr → tr.length = ts.length := by
  intro ts
  induction ts with
  | nil =>
    intro cur maj tr h
    rw [specificTrace_nil, PyResult.ok.injEq] at h
    rw [← h]
    rfl
  | cons t rest ih =>
    intro cur maj tr h
    rw [specificTrace_cons] at h
    by_cases hmpz : mp = 0
    · rw [if_pos hmpz] at h
      simp at h
    · rw [if_neg hmpz] at h
      rcases hnp : npIndex rows cur with _ | w
      · simp only [hnp] at h
        exact PyResult.noConfusion h
      · simp only [hnp] at h
        by_cases hres : (if (maj + 1) % mp = 0 then curUp else pool.getD (pick t w) "")
            = "no_ssr"
        · rw [if_pos hres, pyCons_eq_ok] at h
          obtain ⟨tl, hrec, rfl⟩ := h
          simp [ih _ _ _ hrec]
        · rw [if_neg hres, pyCons_eq_ok] at h
          obtain ⟨tl, hrec, rfl⟩ := h
          simp [ih _ _ _ hrec]

theorem specificTrace_ok_exists (pool : List String) (rows : List (List ℚ)) (curUp : String)
    (mp : ℤ) (pick : ℕ → List ℚ → ℕ) (hmp : mp ≠ 0) :
    ∀ (ts : List ℕ) (cur maj : ℤ), 0 ≤ cur → cur.toNat + ts.length ≤ rows.length →
      ∃ tr, specificTrace pool rows curUp mp pick ts cur maj = .ok tr := by
  intro ts
  induction ts with
  | nil =>
    intro cur maj _ _
    exact ⟨[], rfl⟩
  | cons t rest ih =>
    intro cur maj hc hlen
    have hlt : cur.toNat < rows.length := by
      simp only [List.length_cons] at hlen
      omega
    have hnp : npIndex rows cur = some (rows.get ⟨cur.toNat, hlt⟩) := by
      rw [npIndex, if_pos hc]
      exact List.get?_eq_get hlt
    rw [specificTrace_cons, if_neg hmp]
    simp only [hnp]
    by_cases hres : (if (maj + 1) % mp = 0 then curUp
        else pool.getD (pick t (rows.get ⟨cur.toNat, hlt⟩)) "") = "no_ssr"
    · rw [if_pos hres]
      obtain ⟨tr, htr⟩ := ih (cur + 1) (maj + 1) (by omega)
        (by simp only [List.length_cons] at hlen ⊢; omega)
      exact ⟨_, by rw [htr]; rfl⟩
    · rw [if_neg hres]
      obtain ⟨tr, htr⟩ := ih 0 _ (le_refl 0)
        (by simp only [List.length_cons, Int.toNat_zero] at hlen ⊢; omega)
      exact ⟨_, by rw [htr]; rfl⟩

theorem specificTrace_inv (pool : List String) (rows : List (List ℚ)) (curUp : String)
    (mp : ℤ) (pick : ℕ → List ℚ → ℕ) (hcu : curUp ≠ "no_ssr") :
    ∀ (ts : List ℕ) (cur maj : ℤ) (tr : List (ℤ × ℤ × String)),
      specificTrace pool rows curUp mp pick ts cur maj = .ok tr →
      specificInv pool pick curUp mp maj tr := by
  intro ts
  induction ts with
  | nil =>
    intro cur maj tr h
    rw [specificTrace_nil, PyResult.ok.injEq] at h
    rw [← h]
    trivial
  | cons t rest ih =>
    intro cur maj tr h
    rw [specificTrace_cons] at h
    by_cases hmpz : mp = 0
    · rw [if_pos hmpz] at h
      simp at h
    · rw [if_neg hmpz] at h
      rcases hnp : npIndex rows cur with _ | w
      · simp only [hnp] at h
        exact PyResult.noConfusion h
      · simp only [hnp] at h
        by_cases hres1 : (maj + 1) % mp = 0
        · -- the guarantee fired: the recorded outcome is `curUp`
          rw [if_pos hres1] at h
          rw [if_neg hcu] at h
          rw [if_pos (rfl : curUp = curUp), pyCons_eq_ok] at h
          obtain ⟨tl, hrec, rfl⟩ := h
          refine ⟨rfl, fun _ => rfl, fun hmod => absurd hres1 hmod, ?_⟩
          rw [if_pos (show (maj + 1, cur + 1, curUp).2.2 = curUp from rfl)]
          exact ih _ _ _ hrec
        · -- no forcing: the recorded outcome is the oracle's sample
          rw [if_neg hres1] at h
          by_cases hres2 : pool.getD (pick t w) "" = "no_ssr"
          · rw [if_pos hres2, pyCons_eq_ok] at h
            obtain ⟨tl, hrec, rfl⟩ := h
            refine ⟨rfl, fun hmod => absurd hmod hres1, fun _ => ⟨t, w, rfl⟩, ?_⟩
            have hne : ¬((maj + 1, cur + 1, pool.getD (pick t w) "").2.2 = curUp) := by
              show ¬(pool.getD (pick t w) "" = curUp)
              rw [hres2]
              exact fun hh => hcu hh.symm
            rw [if_neg hne]
            exact ih _ _ _ hrec
          · rw [if_neg hres2, pyCons_eq_ok] at h
            obtain ⟨tl, hrec, rfl⟩ := h
            refine ⟨rfl, fun hmod => absurd hmod hres1, fun _ => ⟨t, w, rfl⟩, ?_⟩
            exact ih _ _ _ hrec

/-- C5: under Policy C the guarantee counter recorded with each attempt
increments from its reset-adjusted predecessor, the outcome is forced to
the sole tracked rate-up target exactly on the attempts where the counter
is a multiple of the threshold (and is the oracle's sample otherwise),
and the counter resets to 0 exactly when the tracked target is obtained —
naturally or forced — never on other rare hits; in particular with
threshold `FixedCount(5)`, counter seeded 0, five consecutive attempts
whose samples never yield the target force the 5th attempt's outcome to
the tracked target. -/
theorem c5_specific_major_pity (pool : List String) (rows : List (List ℚ)) (curUp : String)
    (mp : ℤ) (pick : ℕ → List ℚ → ℕ) (hcu : curUp ≠ "no_ssr") :
    (∀ (ts : List ℕ) (cur maj : ℤ) (tr : List (ℤ × ℤ × String)),
        specificTrace pool rows curUp mp pick ts cur maj = .ok tr →
        specificInv pool pick curUp mp maj tr) ∧
    ((∀ s w, pool.getD (pick s w) "" ≠ curUp) → 5 ≤ rows.length →
      ∃ tr c, specificTrace pool rows curUp 5 pick (List.range' 1 5) 0 0 = .ok tr ∧
        tr.length = 5 ∧ tr.getLast? = some (5, c, curUp)) := by
  refine ⟨specificTrace_inv pool rows curUp mp pick hcu, ?_⟩
  intro hnat hlen5
  obtain ⟨tr, htr⟩ := specificTrace_ok_exists pool rows curUp 5 pick (by norm_num)
    (List.range' 1 5) 0 0 (le_refl 0) (by simpa using hlen5)
  have hlen := specificTrace_ok_length pool rows curUp 5 pick _ _ _ _ htr
  have hinv := specificTrace_inv pool rows curUp 5 pick hcu _ _ _ _ htr
  rw [List.length_range'] at hlen
  rcases tr with _ | ⟨e1, tr⟩; · simp at hlen
  rcases tr with _ | ⟨e2, tr⟩; · simp at hlen
  rcases tr with _ | ⟨e3, tr⟩; · simp at hlen
  rcases tr with _ | ⟨e4, tr⟩; · simp at hlen
  rcases tr with _ | ⟨e5, tr⟩; · simp at hlen
  rcases tr with _ | ⟨e6, tr⟩
  case cons =>
    simp only [List.length_cons] at hlen
    omega
  obtain ⟨h11, h12, h13, hinv⟩ := hinv
  have hr1 : e1.2.2 ≠ curUp := by
    obtain ⟨s, w, hsw⟩ := h13 (by rw [h11]; decide)
    rw [hsw]
    exact hnat s w
  rw [if_neg hr1, h11] at hinv
  obtain ⟨h21, h22, h23, hinv⟩ := hinv
  have hr2 : e2.2.2 ≠ curUp := by
    obtain ⟨s, w, hsw⟩ := h23 (by rw [h21]; decide)
    rw [hsw]
    exact hnat s w
  rw [if_neg hr2, h21] at hinv
  obtain ⟨h31, h32, h33, hinv⟩ := hinv
  have hr3 : e3.2.2 ≠ curUp := by
    obtain ⟨s, w, hsw⟩ := h33 (by rw [h31]; decide)
    rw [hsw]
    exact hnat s w
  rw [if_neg hr3, h31] at hinv
  obtain ⟨h41, h42, h43, hinv⟩ := hinv
  have hr4 : e4.2.2 ≠ curUp := by
    obtain ⟨s, w, hsw⟩ := h43 (by rw [h41]; decide)
    rw [hsw]
    exact hnat s w
  rw [if_neg hr4, h41] at hinv
  obtain ⟨h51, h52, -, -⟩ := hinv
  have hm5 : e5.1 = 5 := by
    rw [h51]
    decide
  have hr5 : e5.2.2 = curUp := by
    apply h52
    rw [hm5]
    decide
  refine ⟨[e1, e2, e3, e4, e5], e5.2.1, htr, by simp, ?_⟩
  obtain ⟨a, b, c⟩ := e5
  simp only [] at hm5 hr5
  simp [hm5, hr5]

/-- Witness data for C5: a three-item pool, five identical rows and an
oracle that always samples the idle item. -/
def c5Rows : List (List ℚ) :=
  List.replicate 5 [1 / 2, 1 / 4, 1 / 4]

theorem c5_witness :
    ∃ tr c, specificTrace ["no_ssr", "other_ssr", "A"] c5Rows "A" 5 (fun _ _ => 0)
        (List.range' 1 5) 0 0 = .ok tr ∧
      tr.length = 5 ∧ tr.getLast? = some (5, c, "A") := by
  exact (c5_specific_major_pity ["no_ssr", "other_ssr", "A"] c5Rows "A" 5 (fun _ _ => 0)
    (by decide)).2 (fun s w => by decide) (by simp [c5Rows])

/-! ### Policy A: major-pity table switching (claim C6) -/

theorem normalTrace_nil (pool : List String) (reg maj : List (List ℚ)) (mp : Bool)
    (pick : ℕ → List ℚ → ℕ) (cur : ℤ) (b : Bool) :
    normalTrace pool reg maj mp pick [] cur b = .ok [] := rfl

theorem normalTrace_cons (pool : List String) (reg maj : List (List ℚ)) (mp : Bool)
    (pick : ℕ → List ℚ → ℕ) (t : ℕ) (rest : List ℕ) (cur : ℤ) (b : Bool) :
    normalTrace pool reg maj mp pick (t :: rest) cur b
      = match npIndex (if b then maj else reg) cur with
        | none => .exn "IndexError"
        | some w =>
          if pool.getD (pick t w) "" = "no_ssr" then
            pyCons (b, cur + 1, pool.getD (pick t w) "")
              (normalTrace pool reg maj mp pick rest (cur + 1) b)
          else
            pyCons (b, cur + 1, pool.getD (pick t w) "")
              (normalTrace pool reg maj mp pick rest 0
                (if mp then decide (pool.getD (pick t w) "" = "other_ssr") else b)) := rfl

/-- The table flag dictated by the most recently emitted rare outcome:
scanning the already-produced attempts in order, the flag is `b` (the
caller-supplied starting flag) while no rare outcome was emitted yet, and
after each emitted rare outcome it is exactly "that outcome was
`other_ssr`". -/
def lastRareD (b : Bool) : List (Bool × ℤ × String) → Bool
  | [] => b
  | e :: pre =>
    lastRareD (if e.2.2 ≠ "no_ssr" then decide (e.2.2 = "other_ssr") else b) pre

theorem lastRareD_nil (b : Bool) : lastRareD b [] = b := rfl

theorem lastRareD_cons (b : Bool) (e : Bool × ℤ × String) (pre : List (Bool × ℤ × String)) :
    lastRareD b (e :: pre)
      = lastRareD (if e.2.2 ≠ "no_ssr" then decide (e.2.2 = "other_ssr") else b) pre := rfl

theorem normalTrace_full_reroll_inv (pool : List String) (reg maj : List (List ℚ))
    (pick : ℕ → List ℚ → ℕ) :
    ∀ (ts : List ℕ) (cur : ℤ) (b : Bool) (tr : List (Bool × ℤ × String)),
      normalTrace pool reg maj true pick ts cur b = .ok tr →
      ∀ i (hi : i < tr.length), (tr[i]).1 = lastRareD b (tr.take i) := by
  intro ts
  induction ts with
  | nil =>
    intro cur b tr h
    rw [normalTrace_nil, PyResult.ok.injEq] at h
    rw [← h]
    intro i hi
    simp at hi
  | cons t rest ih =>
    intro cur b tr h
    rw [normalTrace_cons] at h
    rcases hnp : npIndex (if b then maj else reg) cur with _ | w
    · simp only [hnp] at h
      exact PyResult.noConfusion h
    · simp only [hnp] at h
      by_cases hres : pool.getD (pick t w) "" = "no_ssr"
      · rw [if_pos hres, pyCons_eq_ok] at h
        obtain ⟨tl, hrec, rfl⟩ := h
        intro i hi
        rcases i with _ | i
        · rw [List.take_zero, lastRareD_nil]
          rfl
        · rw [List.getElem_cons_succ, List.take_succ_cons, lastRareD_cons]
          rw [if_neg (by simpa using hres)]
          exact ih _ _ _ hrec i (by simpa using hi)
      · rw [if_neg hres] at h
        rw [if_true, pyCons_eq_ok] at h
        obtain ⟨tl, hrec, rfl⟩ := h
        intro i hi
        rcases i with _ | i
        · rw [List.take_zero, lastRareD_nil]
          rfl
        · rw [List.getElem_cons_succ, List.take_succ_cons, lastRareD_cons]
          rw [if_pos (by simpa using hres)]
          exact ih _ _ _ hrec i (by simpa using hi)

theorem normalTrace_off_inv (pool : List String) (reg maj : List (List ℚ))
    (pick : ℕ → List ℚ → ℕ) :
    ∀ (ts : List ℕ) (cur : ℤ) (b : Bool) (tr : List (Bool × ℤ × String)),
      normalTrace pool reg maj false pick ts cur b = .ok tr →
      ∀ i (hi : i < tr.length), (tr[i]).1 = b := by
  intro ts
  induction ts with
  | nil =>
    intro cur b tr h
    rw [normalTrace_nil, PyResult.ok.injEq] at h
    rw [← h]
    intro i hi
    simp at hi
  | cons t rest ih =>
    intro cur b tr h
    rw [normalTrace_cons] at h
    rcases hnp : npIndex (if b then maj else reg) cur with _ | w
    · simp only [hnp] at h
      exact PyResult.noConfusion h
    · simp only [hnp] at h
      by_cases hres : pool.getD (pick t w) "" = "no_ssr"
      · rw [if_pos hres, pyCons_eq_ok] at h
        obtain ⟨tl, hrec, rfl⟩ := h
        intro i hi
        rcases i with _ | i
        · rfl
        · rw [List.getElem_cons_succ]
          exact ih _ _ _ hrec i (by simpa using hi)
      · rw [if_neg hres] at h
        rw [if_neg Bool.false_ne_true, pyCons_eq_ok] at h
        obtain ⟨tl, hrec, rfl⟩ := h
        intro i hi
        rcases i with _ | i
        · rfl
        · rw [List.getElem_cons_succ]
          exact ih _ _ _ hrec i (by simpa using hi)

/-- C6: under Policy A with FullReroll (`major_pity = True`) every attempt
samples from the major-pity table exactly when the most recently emitted
rare outcome was `other_ssr` (and, before any rare outcome, exactly when
the caller-supplied `major_pity_start` flag is true), switching back to
the regular table as soon as a tracked rate-up target is obtained; under
Off (`major_pity = False`) the active table never changes for the whole
run. -/
theorem c6_active_table (pool : List String) (reg maj : List (List ℚ))
    (pick : ℕ → List ℚ → ℕ) :
    (∀ (ts : List ℕ) (cur : ℤ) (b : Bool) (tr : List (Bool × ℤ × String)),
        normalTrace pool reg maj true pick ts cur b = .ok tr →
        ∀ i (hi : i < tr.length), (tr[i]).1 = lastRareD b (tr.take i)) ∧
    (∀ (ts : List ℕ) (cur : ℤ) (b : Bool) (tr : List (Bool × ℤ × String)),
        normalTrace pool reg maj false pick ts cur b = .ok tr →
        ∀ i (hi : i < tr.length), (tr[i]).1 = b) :=
  ⟨normalTrace_full_reroll_inv pool reg maj pick, normalTrace_off_inv pool reg maj pick⟩

theorem c6_witness :
    ([(false, (1 : ℤ), "other_ssr"), (true, (1 : ℤ), "other_ssr")]
        : List (Bool × ℤ × String))[1].1
      = lastRareD false (([(false, (1 : ℤ), "other_ssr"), (true, (1 : ℤ), "other_ssr")]
        : List (Bool × ℤ × String)).take 1) := by
  have htr : normalTrace ["no_ssr", "other_ssr", "A"] [[1, 0, 0]] [[0, 1, 0]] true
      (fun _ _ => 1) [1, 2] 0 false
      = .ok [(false, (1 : ℤ), "other_ssr"), (true, (1 : ℤ), "other_ssr")] := by
    decide
  exact (c6_active_table ["no_ssr", "other_ssr", "A"] [[1, 0, 0]] [[0, 1, 0]]
    (fun _ _ => 1)).1 [1, 2] 0 false _ htr 1 (by decide)

/-! ### Out-of-range start offsets (claim C9) -/

/-- C9 (amended): a `start` offset at or beyond the active table length
makes the first draw raise `IndexError` (as a natural consequence of the
row lookup — there is no explicit validation), but a negative offset in
`[-len, -1]` is NOT rejected: numpy indexing silently wraps it onto row
`len + start + 1` and the first step raises no error at all. -/
theorem c9_start_bounds (pool : List String) (reg maj : List (List ℚ)) (mp : Bool)
    (pick : ℕ → List ℚ → ℕ) (t : ℕ) (ts : List ℕ) (cur : ℤ) (b : Bool) :
    ((((if b then maj else reg).length : ℤ) ≤ cur →
      normalTrace pool reg maj mp pick (t :: ts) cur b = .exn "IndexError")) ∧
    (cur < 0 → 0 ≤ cur + (if b then maj else reg).length →
      ∀ msg, normalTrace pool reg maj mp pick [t] cur b ≠ .exn msg) := by
  constructor
  · intro hge
    have h0 : 0 ≤ cur := le_trans (by positivity) hge
    have hnone : npIndex (if b then maj else reg) cur = none := by
      rw [npIndex, if_pos h0]
      exact List.get?_eq_none.mpr (by omega)
    rw [normalTrace_cons, hnone]
  · intro hneg hwrap msg h
    have hlt : (cur + (if b then maj else reg).length).toNat
        < (if b then maj else reg).length := by omega
    have hsome : npIndex (if b then maj else reg) cur
        = some ((if b then maj else reg).get ⟨(cur + (if b then maj else reg).length).toNat, hlt⟩) := by
      rw [npIndex, if_neg (by omega), if_pos hwrap]
      exact List.get?_eq_get hlt
    rw [normalTrace_cons] at h
    simp only [hsome] at h
    rw [ite_eq_iff] at h
    rcases h with ⟨-, h⟩ | ⟨-, h⟩ <;>
      (rw [normalTrace_nil] at h
       exact PyResult.noConfusion h)

/-- The validated Policy A configuration used to exhibit the C9 failure. -/
def c9Meta : GachaMeta :=
  { base_prob := 1 / 2, base_cnt := 0, up_percent := 1 / 2, up_list := ["A"],
    prob_increase := some 0, pity_cnt := 2, official_prob := none,
    major_pity := .boolv false, refresh := true }

/-- C9 counterexample: `c9Meta` passes validation; running the normal
engine with the out-of-range offset `start = -1` raises no error — the
row index wraps onto the last table row and the run emits the draw event
`(0, "other_ssr")`. -/
theorem c9_counterexample :
    check c9Meta = .ok true ∧
    buildRamp c9Meta = some [1 / 2, 1] ∧
    engineRows (regularRows c9Meta [1 / 2, 1])
      = [[(1 : ℚ) / 2, 1 / 4, 1 / 4], [0, 1 / 2, 1 / 2]] ∧
    normalTrace (itemPool c9Meta) [[(1 : ℚ) / 2, 1 / 4, 1 / 4], [0, 1 / 2, 1 / 2]] [] false
        (fun _ _ => 1) [1] (-1) false
      = .ok [(false, 0, "other_ssr")] := by
  refine ⟨?_, ?_, ?_, ?_⟩
  · norm_num [check, c9Meta, officialTruthy]
  · have h2 : List.range (Int.toNat 2) = [0, 1] := rfl
    simp only [buildRamp, rawRamp, c9Meta, probIncreaseVal, h2, List.map_cons, List.map_nil,
      Option.getD_some, if_true]
    norm_num
    intro habs
    simp at habs
  · norm_num [engineRows, regularRows, c9Meta, splitWeights, round4, roundHalfEven,
      List.dropLast]
  · decide

theorem c9_witness :
    normalTrace ["no_ssr"] [[1]] [] false (fun _ _ => 0) [1] 5 false = .exn "IndexError" := by
  exact (c9_start_bounds ["no_ssr"] [[1]] [] false (fun _ _ => 0) 1 [] 5 false).1
    (by norm_num)

/-! ### Policy dispatch and the absent combination check (claim C8) -/

/-- C8 (amended): no policy-combination validation exists. `_check` is
entirely independent of `(refresh, major_pity)` and never raises an
`InvalidPolicyCombination`-style error; `multi_attempts` dispatches
purely on `refresh` and the runtime type of `major_pity`: `refresh=false`
always selects the non-refresh engine (which ignores major pity, so e.g.
`refresh=false` with `FixedCount(n)` silently draws under Policy B),
`refresh=true` selects the normal engine for a bool and the fixed-count
engine for an int. -/
theorem c8_dispatch_total (m : GachaMeta) :
    (m.refresh = false → dispatch m = .notRefresh) ∧
    (∀ b, m.refresh = true → m.major_pity = .boolv b → dispatch m = .normal) ∧
    (∀ k, m.refresh = true → m.major_pity = .intv k → dispatch m = .specific) ∧
    (∀ mp mp' : MajorPity,
      check { m with major_pity := mp } = check { m with major_pity := mp' }) := by
  refine ⟨?_, ?_, ?_, ?_⟩
  · intro h
    rcases hmp : m.major_pity with b | k <;> simp [dispatch, h, hmp]
  · intro b h hmp
    simp [dispatch, h, hmp]
  · intro k h hmp
    simp [dispatch, h, hmp]
  · intro mp mp'
    rfl

/-- The `(refresh=false, FixedCount(7))` configuration: under the claim it
must be rejected as `InvalidPolicyCombination` before any drawing. -/
def c8Meta : GachaMeta :=
  { base_prob := 1 / 20, base_cnt := 0, up_percent := 1 / 2, up_list := ["A"],
    prob_increase := some 0, pity_cnt := 10, official_prob := none,
    major_pity := .intv 7, refresh := false }

/-- C8 counterexample: `c8Meta` pairs `refresh=false` with a fixed-count
major pity — a pairing matching none of the three policies — yet it
passes `_check` with no error, is dispatched to the Policy B engine, and
a three-attempt run draws events normally. -/
theorem c8_counterexample :
    check c8Meta = .ok true ∧
    dispatch c8Meta = .notRefresh ∧
    notRefreshRun (itemPool c8Meta) [(19 : ℚ) / 20, 1 / 40, 1 / 40] 10 (fun _ _ => 1) 3 0
      = .ok [(1, "other_ssr"), (1, "other_ssr"), (1, "other_ssr")] := by
  refine ⟨?_, rfl, ?_⟩
  · norm_num [check, c8Meta, officialTruthy]
  · decide

theorem c8_witness : dispatch c8Meta = PolicyBranch.notRefresh := by
  exact (c8_dispatch_total c8Meta).1 rfl

/-! ### The unresolvable imports (claim C10) -/

/-- The modules the `gacha` package contains (the files under
`src/gacha/`). -/
def gachaModules : List String :=
  ["gacha.common_games", "gacha.meta", "gacha.simulator", "gacha.system", "gacha.utils"]

/-- The top-level names each module defines. -/
def moduleDefs : String → List String
  | "gacha.common_games" => ["Games"]
  | "gacha.meta" => ["GachaMeta"]
  | "gacha.simulator" => ["ProbIncreaseMode", "ExperimentMode", "GachaSimulator"]
  | "gacha.system" => ["GachaMeta", "ProbTable", "GachaSystem"]
  | "gacha.utils" =>
    ["counter_contain", "cal_individual_probs", "cal_conditional_probs", "cal_expectation",
      "estimate_prob_increase"]
  | _ => []

/-- The intra-package `from .x import y` statements of each module. -/
def intraImports : String → List (String × String)
  | "gacha.system" => [("gacha.utils", "combination")]
  | "gacha.simulator" =>
    [("gacha.meta", "GachaMeta"), ("gacha.system", "GachaSystem"),
      ("gacha.utils", "counter_contain"), ("gacha.exceptions", "SystemBuildError")]
  | _ => []

/-- A `from M import N` resolves exactly when module `M` exists in the
package and defines `N`; otherwise Python raises an
`ImportError`/`ModuleNotFoundError`. -/
def importOk (imp : String × String) : Bool :=
  decide (imp.1 ∈ gachaModules) && decide (imp.2 ∈ moduleDefs imp.1)

/-- `gacha.system` imports successfully iff all of its intra-package
imports resolve (its other imports are third-party). -/
def systemImportable : Bool :=
  (intraImports "gacha.system").all importOk

/-- `gacha.simulator` imports successfully iff `gacha.system` does (it
imports from it, so that module's `ImportError` propagates) and all of
its own intra-package imports resolve. -/
def simulatorImportable : Bool :=
  systemImportable && (intraImports "gacha.simulator").all importOk

/-- C10: the source references two names defined nowhere in it —
`gacha/system.py` imports `combination` from `gacha.utils`, which does not
define it, and `gacha/simulator.py` imports `SystemBuildError` from a
`gacha.exceptions` module that is absent — so importing either module
raises `ImportError`, every `GachaSimulator` construction fails (its
module cannot even be imported), and the `combination` referenced by
`_cal_not_refresh_expectation` resolves to nothing in the package. -/
theorem c10_broken_imports :
    importOk ("gacha.utils", "combination") = false ∧
    decide ("gacha.exceptions" ∈ gachaModules) = false ∧
    importOk ("gacha.exceptions", "SystemBuildError") = false ∧
    systemImportable = false ∧
    simulatorImportable = false ∧
    decide ("combination" ∈ moduleDefs "gacha.system") = false ∧
    decide ("combination" ∈ moduleDefs "gacha.utils") = false := by
  decide

/-! ### Rounded columns and the expectation column (claim C7) -/

theorem splitWeights_getLastD (nUp : ℕ) (p u : ℚ) :
    (splitWeights nUp p u).getLastD 0 = round4 p := by
  rw [splitWeights_shape, List.getLastD_eq_getLast?, List.getLast?_concat]
  rfl

theorem ssrNGachaGo_length (r : List ℚ) : ∀ cum : ℚ, (ssrNGachaGo r cum).length = r.length := by
  induction r with
  | nil => intro cum; rfl
  | cons p rest ih =>
    intro cum
    rw [ssrNGachaGo, List.length_cons, List.length_cons, ih]

theorem ssrNGachaGo_get? (r : List ℚ) : ∀ (cum : ℚ) (i : ℕ),
    (ssrNGachaGo r cum).get? i
      = (r.get? i).map (fun p => cum * ((r.take i).map (fun q => 1 - q)).prod * p) := by
  induction r with
  | nil =>
    intro cum i
    rfl
  | cons p rest ih =>
    intro cum i
    rcases i with _ | i
    · simp [ssrNGachaGo]
    · rw [ssrNGachaGo]
      show (ssrNGachaGo rest (cum * (1 - p))).get? i = _
      rw [ih]
      rcases hq : rest.get? i with _ | q
      · rw [List.get?_cons_succ, hq]
        rfl
      · simp only [hq, Option.map_some', List.get?_cons_succ, List.take_succ_cons,
          List.map_cons, List.prod_cons, Option.some.injEq]
        ring

theorem zipWith_range'_mul_sum (l : List ℚ) : ∀ k : ℕ,
    (List.zipWith (fun (i : ℕ) s => (i : ℚ) * s) (List.range' k l.length) l).sum
      = ∑ i ∈ Finset.range l.length, ((k + i : ℕ) : ℚ) * l.getD i 0 := by
  induction l with
  | nil => intro k; simp
  | cons a t ih =>
    intro k
    rw [List.length_cons, List.range'_succ, List.zipWith_cons_cons, List.sum_cons,
      Finset.sum_range_succ', ih (k + 1)]
    have h0 : ((k + 0 : ℕ) : ℚ) * (a :: t).getD 0 0 = (k : ℚ) * a := by
      norm_num
    rw [h0]
    have hcong : ∀ i ∈ Finset.range t.length,
        ((k + 1 + i : ℕ) : ℚ) * t.getD i 0 = ((k + (i + 1) : ℕ) : ℚ) * (a :: t).getD (i + 1) 0 := by
      intro i _
      rw [List.getD_cons_succ]
      push_cast
      ring
    rw [Finset.sum_congr rfl hcong]
    ring

/-- C7 (amended): every column `_split_weights` produces — the outcome
columns AND `total_ssr` — is rounded to 4 decimal places, so `total_ssr`
holds `round(p, 4)`, not the unrounded `p`; the refresh-path expectation
is instead computed from the separate, unrounded `ssr_n_gacha` column,
whose entry `i` is the exact first-success probability
`p_i * Π_{j<i} (1 - p_j)`, as `Σ (i+1) * ssr_n_gacha[i]`. -/
theorem c7_rounding_and_expectation (m : GachaMeta) (r : List ℚ)
    (hv : check m = .ok true) (hr : buildRamp m = some r) :
    ((regularRows m r).map (fun row => row.getLastD 0) = r.map round4) ∧
    (∀ i : ℕ, (ssrNGachaList r).get? i
        = (r.get? i).map (fun p => ((r.take i).map (fun q => 1 - q)).prod * p)) ∧
    (refreshExpectation r
        = ∑ i ∈ Finset.range (ssrNGachaList r).length,
            ((1 + i : ℕ) : ℚ) * (ssrNGachaList r).getD i 0) := by
  refine ⟨?_, ?_, ?_⟩
  · rw [regularRows, List.map_map]
    refine List.map_congr_left (fun p _ => ?_)
    exact splitWeights_getLastD m.up_list.length p m.up_percent
  · intro i
    rw [ssrNGachaList, ssrNGachaGo_get? r 1 i]
    rcases hq : r.get? i with _ | q
    · simp
    · simp [hq]
  · rw [refreshExpectation]
    rw [show r.length = (ssrNGachaList r).length from (ssrNGachaGo_length r 1).symm]
    exact zipWith_range'_mul_sum (ssrNGachaList r) 1

/-- The configuration exhibiting the failure of C7 as stated: its single
ramp probability `0.00012` needs more than 4 decimal places. -/
def c7Meta : GachaMeta :=
  { base_prob := 3 / 25000, base_cnt := 0, up_percent := 1, up_list := ["A"],
    prob_increase := some 0, pity_cnt := 1, official_prob := none,
    major_pity := .boolv false, refresh := false }

/-- C7 counterexample: `c7Meta` passes validation, its ramp is
`[0.00012]`, but the `total_ssr` column of the built table holds the
rounded `0.0001`, not the unrounded `p = 0.00012`. -/
theorem c7_counterexample :
    check c7Meta = .ok true ∧
    buildRamp c7Meta = some [3 / 25000] ∧
    (regularRows c7Meta [3 / 25000]).map (fun row => row.getLastD 0) = [1 / 10000] ∧
    ¬((1 : ℚ) / 10000 = 3 / 25000) := by
  refine ⟨?_, ?_, ?_, ?_⟩
  · norm_num [check, c7Meta, officialTruthy]
  · have h1 : List.range (Int.toNat 1) = [0] := rfl
    simp only [buildRamp, rawRamp, c7Meta, probIncreaseVal, h1, List.map_cons, List.map_nil,
      Option.getD_some]
    norm_num
  · have hfl : ⌊(6 : ℚ) / 5⌋ = 1 := by
      rw [Int.floor_eq_iff]
      norm_num
    have hfr : Int.fract ((6 : ℚ) / 5) = 1 / 5 := by
      rw [Int.fract, hfl]
      norm_num
    norm_num [regularRows, c7Meta, splitWeights, round4, roundHalfEven, hfl, hfr]
  · norm_num

/-- A validated configuration for the C7 witness. -/
def c7MetaW : GachaMeta :=
  { base_prob := 1 / 2, base_cnt := 0, up_percent := 1 / 2, up_list := ["A"],
    prob_increase := some 0, pity_cnt := 1, official_prob := none,
    major_pity := .boolv false, refresh := false }

theorem c7_witness :
    (regularRows c7MetaW [1 / 2]).map (fun row => row.getLastD 0)
      = ([1 / 2] : List ℚ).map round4 := by
  exact (c7_rounding_and_expectation c7MetaW [1 / 2]
    (by norm_num [check, c7MetaW, officialTruthy])
    (by
      have h1 : List.range (Int.toNat 1) = [0] := rfl
      simp only [buildRamp, rawRamp, c7MetaW, probIncreaseVal, h1, List.map_cons, List.map_nil,
        Option.getD_some]
      norm_num)).1

end GachaSim
